import Mathlib

/-!
Verification development for the meetingbar calendar aggregation engine.

The Go sources are shallowly embedded:
* timestamps and durations are `Int` nanoseconds (Go's `time.Duration` /
  `time.Time` differences); `minuteNs` and `hourNs` are Go's `time.Minute`
  and `time.Hour`;
* Go strings are Lean `String`s; byte-level operations (`len`, slicing) are
  modelled on characters, which agrees with Go on ASCII data (all concrete
  inputs below are ASCII);
* `regexp.FindAllString` is modelled by hand-written matchers with Go's
  leftmost, preferred-operator (greedy) semantics, scanning left to right
  and continuing after each match;
* fallible operations return `Option`/`Except`.
-/

namespace MB

/-! ### Character-list string utilities (models of Go `strings` helpers) -/

/-- Model of `strings.HasPrefix` on character lists. -/
def startsWithL : List Char → List Char → Bool
  | [], _ => true
  | _ :: _, [] => false
  | a :: p, b :: t => a == b && startsWithL p t

/-- Whether the pattern occurs as a contiguous substring of the text;
model of `strings.Contains` on character lists. -/
def occursL (p : List Char) : List Char → Bool
  | [] => startsWithL p []
  | c :: rest => startsWithL p (c :: rest) || occursL p rest

/-- Model of `strings.Contains`. -/
def containsSub (s pat : String) : Bool := occursL pat.data s.data

/-- Model of `strings.ReplaceAll` for a non-empty pattern `pc :: pt`:
scan left to right, replacing non-overlapping occurrences.  The fuel (the
text length at the top call) bounds the recursion; every step consumes at
least one character, so it never runs out before the text does. -/
def replaceAllFuel (pc : Char) (pt r : List Char) : Nat → List Char → List Char
  | 0, t => t
  | _ + 1, [] => []
  | n + 1, c :: rest =>
    if startsWithL (pc :: pt) (c :: rest) then
      r ++ replaceAllFuel pc pt r n ((c :: rest).drop (pt.length + 1))
    else
      c :: replaceAllFuel pc pt r n rest

/-- Model of `strings.ReplaceAll` on `String`; Go's behaviour for an empty
pattern (interleaving the replacement) is never exercised by the sources,
which only replace literal placeholders, so the empty pattern is the
identity here. -/
def replaceAll (s pattern repl : String) : String :=
  match pattern.data with
  | [] => s
  | pc :: pt => String.mk (replaceAllFuel pc pt repl.data s.data.length s.data)

/-- Model of `strings.Split(s, sep)` for the one-character separator
`\n` used by `parseCalendarObject`. -/
def splitLinesAux : List Char → List Char → List (List Char)
  | [], cur => [cur.reverse]
  | c :: rest, cur =>
    if c = '\n' then cur.reverse :: splitLinesAux rest []
    else splitLinesAux rest (c :: cur)

/-- Whitespace trimmed by `strings.TrimSpace` (the ASCII cases). -/
def isSpaceByte (c : Char) : Bool :=
  c == ' ' || c == '\t' || c == '\n' || c == '\r' || c == '\x0c' || c == '\x0b'

/-- Model of `strings.TrimSpace` on character lists. -/
def trimL (l : List Char) : List Char :=
  ((l.dropWhile isSpaceByte).reverse.dropWhile isSpaceByte).reverse

/-! ### Link extraction: model of `calendar/parser.go` -/

/-- Model of the Go `MeetingType` string constants
(`meet`, `teams`, `zoom`, `unknown`). -/
inductive MeetingType where
  | meet
  | teams
  | zoom
  | unknown
deriving DecidableEq, Repr

/-- Model of `calendar.MeetingLink` (field `Type` is renamed `type`,
`Type` being a Lean keyword). -/
structure MeetingLink where
  URL : String
  type : MeetingType
deriving DecidableEq, Repr

/-- Strip an exact literal from the front of the text, returning the rest. -/
def stripLit : List Char → List Char → Option (List Char)
  | [], t => some t
  | _ :: _, [] => none
  | a :: l, b :: t => if a = b then stripLit l t else none

/-- Character class `[a-z-]` of `googleMeetRegex` (note: Go's regex is
case-sensitive and the class has no digits). -/
def googleSlugChar (c : Char) : Bool := ('a' ≤ c && c ≤ 'z') || c == '-'

/-- Go regexp's `\s`, i.e. `[\t\n\f\r ]`. -/
def goSpace (c : Char) : Bool :=
  c == '\t' || c == '\n' || c == '\x0c' || c == '\r' || c == ' '

/-- Character class `[^?\s]` used by the Teams and `zoom.us/my/` patterns. -/
def teamsPathChar (c : Char) : Bool := !(c == '?') && !(goSpace c)

/-- Character class `\d`. -/
def isDigitChar (c : Char) : Bool := '0' ≤ c && c ≤ '9'

/-- Match a literal followed by a non-empty greedy run of a character class
(the shape `lit cls+` shared by the tails of all five URL regexes);
returns the matched characters and the rest of the text. -/
def matchCore (lit : List Char) (cls : Char → Bool) (t : List Char) :
    Option (List Char × List Char) :=
  match stripLit lit t with
  | none => none
  | some r =>
    let run := r.takeWhile cls
    if run.isEmpty then none else some (lit ++ run, r.drop run.length)

/-- Try the scheme `https` first, then `http`: the preferred-operator
semantics of `https?` in Go's regexp package. -/
def withScheme (core : List Char → Option (List Char × List Char))
    (t : List Char) : Option (List Char × List Char) :=
  match stripLit ("https").data t with
  | some r =>
    match core r with
    | some (m, rest) => some (("https").data ++ m, rest)
    | none =>
      match stripLit ("http").data t with
      | some r2 =>
        match core r2 with
        | some (m, rest) => some (("http").data ++ m, rest)
        | none => none
      | none => none
  | none =>
    match stripLit ("http").data t with
    | some r2 =>
      match core r2 with
      | some (m, rest) => some (("http").data ++ m, rest)
      | none => none
    | none => none

/-- Matcher, at one position, for
`googleMeetRegex = https?://meet\.google\.com/[a-z-]+`. -/
def googleMeetAt (t : List Char) : Option (List Char × List Char) :=
  withScheme (matchCore ("://meet.google.com/").data googleSlugChar) t

/-- Matcher for `teamsRegex = https?://teams\.microsoft\.com/l/meetup-join/[^?\s]+`. -/
def teamsAt (t : List Char) : Option (List Char × List Char) :=
  withScheme (matchCore ("://teams.microsoft.com/l/meetup-join/").data teamsPathChar) t

/-- Matcher for `teamsLiveRegex = https?://teams\.live\.com/meet/[^?\s]+`. -/
def teamsLiveAt (t : List Char) : Option (List Char × List Char) :=
  withScheme (matchCore ("://teams.live.com/meet/").data teamsPathChar) t

/-- Backtracking search for `[^/]*` followed by `lit cls+`: try the longest
admissible prefix of non-slash characters first (greedy preference), then
shorter ones. -/
def zoomSearch (lit : List Char) (cls : Char → Bool) (r : List Char) :
    Nat → Option (List Char × List Char)
  | 0 =>
    match matchCore lit cls r with
    | some (m, rest) => some (m, rest)
    | none => none
  | k + 1 =>
    match matchCore lit cls (r.drop (k + 1)) with
    | some (m, rest) => some (r.take (k + 1) ++ m, rest)
    | none => zoomSearch lit cls r k

/-- The part of the Zoom regexes after the scheme:
`://[^/]*zoom\.us/<j-or-my>/<cls>+`. -/
def zoomCore (lit : List Char) (cls : Char → Bool) (t : List Char) :
    Option (List Char × List Char) :=
  match stripLit ("://").data t with
  | none => none
  | some r =>
    match zoomSearch lit cls r ((r.takeWhile (fun c => !(c == '/'))).length) with
    | some (m, rest) => some (("://").data ++ m, rest)
    | none => none

/-- Matcher for `zoomRegex = https?://[^/]*zoom\.us/j/\d+`. -/
def zoomAt (t : List Char) : Option (List Char × List Char) :=
  withScheme (zoomCore ("zoom.us/j/").data isDigitChar) t

/-- Matcher for `zoomMyRegex = https?://[^/]*zoom\.us/my/[^?\s]+`. -/
def zoomMyAt (t : List Char) : Option (List Char × List Char) :=
  withScheme (zoomCore ("zoom.us/my/").data teamsPathChar) t

/-- Model of `regexp.FindAllString(text, -1)`: scan left to right; at a
match, emit it and continue after its end; otherwise advance one character.
The fuel equals the text length, which suffices because every matcher above
consumes at least one character. -/
def findAllFuel (matchAt : List Char → Option (List Char × List Char)) :
    Nat → List Char → List (List Char)
  | 0, _ => []
  | _ + 1, [] => []
  | n + 1, c :: rest =>
    match matchAt (c :: rest) with
    | some (m, remaining) => m :: findAllFuel matchAt n remaining
    | none => findAllFuel matchAt n rest

/-- All matches of a pattern in a text, in order of position. -/
def findAll (matchAt : List Char → Option (List Char × List Char))
    (t : List Char) : List (List Char) :=
  findAllFuel matchAt t.length t

/-- Model of `ParseMeetingLinks`: description and location are joined with a
single space (note: description FIRST), then the five regexes are applied in
the source's order, each group of matches appended with its provider tag. -/
def ParseMeetingLinks (description location : String) : List MeetingLink :=
  let text := (description ++ (" ") ++ location).data
  (findAll googleMeetAt text).map (fun m => MeetingLink.mk (String.mk m) MeetingType.meet)
    ++ (findAll teamsAt text).map (fun m => MeetingLink.mk (String.mk m) MeetingType.teams)
    ++ (findAll teamsLiveAt text).map (fun m => MeetingLink.mk (String.mk m) MeetingType.teams)
    ++ (findAll zoomAt text).map (fun m => MeetingLink.mk (String.mk m) MeetingType.zoom)
    ++ (findAll zoomMyAt text).map (fun m => MeetingLink.mk (String.mk m) MeetingType.zoom)

/-- Model of `GetPrimaryMeetingLink`: first Google Meet link, else first
Teams link, else first Zoom link, else the first link; `none` when no link
was extracted. -/
def GetPrimaryMeetingLink (description location : String) : Option MeetingLink :=
  let links := ParseMeetingLinks description location
  if links.isEmpty then none
  else
    match links.find? (fun l => l.type == MeetingType.meet) with
    | some l => some l
    | none =>
      match links.find? (fun l => l.type == MeetingType.teams) with
      | some l => some l
      | none =>
        match links.find? (fun l => l.type == MeetingType.zoom) with
        | some l => some l
        | none => links.head?

/-! ### Time model

Instants are `Int` "nanoseconds"; `encodeTime` injects broken-down UTC
date-times monotonically (lexicographically in the fields, matching the
ordering of real timestamps; within one day it advances exactly like real
wall-clock nanoseconds).  The claims below only ever compare instants or
subtract them, never convert them back to dates. -/

/-- One minute in nanoseconds (`time.Minute`). -/
def minuteNs : Int := 60000000000

/-- One hour in nanoseconds (`time.Hour`). -/
def hourNs : Int := 3600000000000

/-- Monotone injective encoding of a broken-down UTC date-time, in
nanoseconds. -/
def encodeTime (y mo d h mi s : Nat) : Int :=
  (((((y * 13 + mo) * 32 + d) * 24 + h) * 60 + mi) * 60 + s : Nat) * 1000000000

/-- Numeric value of a decimal digit character. -/
def digitVal (c : Char) : Nat := c.toNat - ('0').toNat

/-- Whether every character of the list is a decimal digit. -/
def allDigits (l : List Char) : Bool := l.all isDigitChar

/-- Decimal value of a digit list. -/
def digitsVal (l : List Char) : Nat := l.foldl (fun acc c => 10 * acc + digitVal c) 0

/-- Basic field validation performed by Go's `time.Parse` (the per-month day
count is simplified to 1..31; every concrete date below is valid under both
rules). -/
def validFields (mo d h mi s : Nat) : Bool :=
  decide (1 ≤ mo) && decide (mo ≤ 12) && decide (1 ≤ d) && decide (d ≤ 31) &&
  decide (h ≤ 23) && decide (mi ≤ 59) && decide (s ≤ 59)

/-- Model of `time.Parse(time.RFC3339, s)` restricted to the
`YYYY-MM-DDTHH:MM:SSZ` UTC form used throughout this development; other
RFC3339 shapes (offsets, fractional seconds) are conservatively rejected,
which no theorem below depends on. -/
def parseRFC3339 (str : String) : Option Int :=
  match str.data with
  | [y1, y2, y3, y4, d1, mo1, mo2, d2, dd1, dd2, t, h1, h2, c1, mi1, mi2, c2, s1, s2, z] =>
    if allDigits [y1, y2, y3, y4, mo1, mo2, dd1, dd2, h1, h2, mi1, mi2, s1, s2]
        && d1 == '-' && d2 == '-' && t == 'T' && c1 == ':' && c2 == ':' && z == 'Z' then
      let y := digitsVal [y1, y2, y3, y4]
      let mo := digitsVal [mo1, mo2]
      let d := digitsVal [dd1, dd2]
      let h := digitsVal [h1, h2]
      let mi := digitsVal [mi1, mi2]
      let s := digitsVal [s1, s2]
      if validFields mo d h mi s then some (encodeTime y mo d h mi s) else none
    else none
  | _ => none

/-- Model of `time.Parse("2006-01-02", s)` (date-only, as used for all-day
Google events). -/
def parseDateOnly (str : String) : Option Int :=
  match str.data with
  | [y1, y2, y3, y4, d1, mo1, mo2, d2, dd1, dd2] =>
    if allDigits [y1, y2, y3, y4, mo1, mo2, dd1, dd2] && d1 == '-' && d2 == '-' then
      let mo := digitsVal [mo1, mo2]
      let d := digitsVal [dd1, dd2]
      if validFields mo d 0 0 0 then
        some (encodeTime (digitsVal [y1, y2, y3, y4]) mo d 0 0 0)
      else none
    else none
  | _ => none

/-- Model of `parseICalTime`: tries `20060102T150405Z`, then
`20060102T150405`, then `20060102` (the local-time and UTC layouts denote
the same broken-down fields in this UTC-only model). -/
def parseICalTime (str : List Char) : Option Int :=
  match str with
  | [y1, y2, y3, y4, mo1, mo2, dd1, dd2, t, h1, h2, mi1, mi2, s1, s2, z] =>
    if allDigits [y1, y2, y3, y4, mo1, mo2, dd1, dd2, h1, h2, mi1, mi2, s1, s2]
        && t == 'T' && z == 'Z' then
      let mo := digitsVal [mo1, mo2]
      let d := digitsVal [dd1, dd2]
      let h := digitsVal [h1, h2]
      let mi := digitsVal [mi1, mi2]
      let s := digitsVal [s1, s2]
      if validFields mo d h mi s then
        some (encodeTime (digitsVal [y1, y2, y3, y4]) mo d h mi s)
      else none
    else none
  | [y1, y2, y3, y4, mo1, mo2, dd1, dd2, t, h1, h2, mi1, mi2, s1, s2] =>
    if allDigits [y1, y2, y3, y4, mo1, mo2, dd1, dd2, h1, h2, mi1, mi2, s1, s2]
        && t == 'T' then
      let mo := digitsVal [mo1, mo2]
      let d := digitsVal [dd1, dd2]
      let h := digitsVal [h1, h2]
      let mi := digitsVal [mi1, mi2]
      let s := digitsVal [s1, s2]
      if validFields mo d h mi s then
        some (encodeTime (digitsVal [y1, y2, y3, y4]) mo d h mi s)
      else none
    else none
  | [y1, y2, y3, y4, mo1, mo2, dd1, dd2] =>
    if allDigits [y1, y2, y3, y4, mo1, mo2, dd1, dd2] then
      let mo := digitsVal [mo1, mo2]
      let d := digitsVal [dd1, dd2]
      if validFields mo d 0 0 0 then
        some (encodeTime (digitsVal [y1, y2, y3, y4]) mo d 0 0 0)
      else none
    else none
  | _ => none

/-! ### Data model: `calendar.Meeting` and the Google event shape -/

/-- Model of `calendar.Meeting`. -/
structure Meeting where
  ID : String
  Title : String
  StartTime : Int
  EndTime : Int
  MeetingLink : Option MeetingLink
  CalendarID : String
  AccountID : String
  IsAllDay : Bool
deriving DecidableEq, Repr

/-- Model of the Google API `calendar.EventDateTime` (empty string for an
absent field, as in the Go struct). -/
structure EventDateTime where
  DateTime : String
  Date : String
deriving DecidableEq, Repr

/-- Model of a Google conference-data entry point. -/
structure EntryPoint where
  EntryPointType : String
  Uri : String
deriving DecidableEq, Repr

/-- Model of the Google API event fields read by `convertEventToMeeting`
(`Option` models nil pointers). -/
structure Event where
  Id : String
  Summary : String
  Description : String
  Location : String
  Status : String
  Start : Option EventDateTime
  End : Option EventDateTime
  ConferenceData : Option (List EntryPoint)
deriving DecidableEq, Repr

/-- The conference-data branch of `convertEventToMeeting`: the first entry
point of type `video` whose URI contains `meet.google.com`. -/
def conferenceLink (event : Event) : Option MeetingLink :=
  match event.ConferenceData with
  | none => none
  | some entryPoints =>
    match entryPoints.find? (fun ep =>
        ep.EntryPointType == ("video") && containsSub ep.Uri ("meet.google.com")) with
    | some ep => some (MeetingLink.mk ep.Uri MeetingType.meet)
    | none => none

/-- Link resolution of `convertEventToMeeting`: native conference data
first, then `GetPrimaryMeetingLink` over description and location. -/
def resolveMeetingLink (event : Event) : Option MeetingLink :=
  match conferenceLink event with
  | some l => some l
  | none => GetPrimaryMeetingLink event.Description event.Location

/-- Title fallback of `convertEventToMeeting`. -/
def eventTitle (event : Event) : String :=
  if event.Summary == ("") then ("(No title)") else event.Summary

/-- Model of `convertEventToMeeting` (Google backend): rejects events with
no start or cancelled status; parses RFC3339 times with a one-hour default
end; rejects all-day (date-only) events; resolves the meeting link. -/
def convertEventToMeeting (event : Event) (calendarID accountID : String) :
    Option Meeting :=
  if event.Start.isNone || event.Status == ("cancelled") then none
  else
    match event.Start with
    | none => none
    | some st =>
      if !(st.DateTime == ("")) then
        match parseRFC3339 st.DateTime with
        | none => none
        | some startTime =>
          let endTime :=
            match event.End with
            | some en =>
              if !(en.DateTime == ("")) then
                match parseRFC3339 en.DateTime with
                | some e => e
                | none => startTime + hourNs
              else startTime + hourNs
            | none => startTime + hourNs
          some (Meeting.mk event.Id (eventTitle event) startTime endTime
            (resolveMeetingLink event) calendarID accountID false)
      else if !(st.Date == ("")) then
        match parseDateOnly st.Date with
        | none => none
        | some _ => none
      else none

/-! ### GNOME backend: model of `parseCalendarObject` -/

/-- Model of `isMeetingLink`: the lowercased text contains one of the known
meeting domains. -/
def isMeetingLink (text : String) : Bool :=
  let lower := String.mk (text.data.map Char.toLower)
  containsSub lower ("meet.google.com") || containsSub lower ("zoom.us")
    || containsSub lower ("teams.microsoft.com") || containsSub lower ("webex.com")
    || containsSub lower ("gotomeeting.com")

/-- Model of `detectMeetingTypeEnum`. -/
def detectMeetingTypeEnum (url : String) : MeetingType :=
  let lower := String.mk (url.data.map Char.toLower)
  if containsSub lower ("meet.google.com") then MeetingType.meet
  else if containsSub lower ("zoom.us") then MeetingType.zoom
  else if containsSub lower ("teams.microsoft.com") then MeetingType.teams
  else MeetingType.unknown

/-- The line loop of `parseCalendarObject`: fold over trimmed lines with the
partially-built meeting (title, optional start/end, optional link) and the
inside-VEVENT flag; `END:VEVENT` breaks out of the loop. -/
def parseLines :
    List (List Char) → List Char → Option Int → Option Int → Option MeetingLink → Bool →
    List Char × Option Int × Option Int × Option MeetingLink
  | [], title, st, en, lk, _ => (title, st, en, lk)
  | line :: rest, title, st, en, lk, currentEvent =>
    let l := trimL line
    if l == ("BEGIN:VEVENT").data then parseLines rest title st en lk true
    else if l == ("END:VEVENT").data then (title, st, en, lk)
    else if !currentEvent then parseLines rest title st en lk currentEvent
    else if startsWithL ("SUMMARY:").data l then
      parseLines rest (l.drop 8) st en lk currentEvent
    else if startsWithL ("DTSTART:").data l then
      match parseICalTime (l.drop 8) with
      | some t => parseLines rest title (some t) en lk currentEvent
      | none => parseLines rest title st en lk currentEvent
    else if startsWithL ("DTEND:").data l then
      match parseICalTime (l.drop 6) with
      | some t => parseLines rest title st (some t) lk currentEvent
      | none => parseLines rest title st en lk currentEvent
    else if startsWithL ("LOCATION:").data l then
      let location := l.drop 9
      if !(location == ([] : List Char)) && isMeetingLink (String.mk location) then
        parseLines rest title st en
          (some (MeetingLink.mk (String.mk location)
            (detectMeetingTypeEnum (String.mk location)))) currentEvent
      else parseLines rest title st en lk currentEvent
    else parseLines rest title st en lk currentEvent

/-- Model of `parseCalendarObject` (GNOME backend): note that it checks
neither a `STATUS:` line nor whether `DTSTART` is date-only; `IsAllDay` is
never set. -/
def parseCalendarObject (icalData : String) : Option Meeting :=
  match parseLines (splitLinesAux icalData.data []) [] none none none false with
  | (title, some s, some e, lk) =>
    if title == ([] : List Char) then none
    else some (Meeting.mk ("") (String.mk title) s e lk ("") ("") false)
  | _ => none

/-! ### Configuration: model of `config.Config` (the fields this core reads) -/

/-- Model of `config.Config`, restricted to the fields read by the refresh
loop, display and notification code. -/
structure Config where
  RefreshInterval : Int
  NotificationTime : Int
  EnableNotifications : Bool
  MaxMeetings : Int
  MaxTitleLength : Int
  CurrentMeetingFormat : String
  UpcomingMeetingFormat : String
deriving DecidableEq, Repr

/-- `config.DefaultNotificationTime` (minutes). -/
def DefaultNotificationTime : Int := 5

/-- Model of `Config.GetNotificationDuration`. -/
def GetNotificationDuration (c : Config) : Int := c.NotificationTime * minuteNs

/-- Insert a meeting after every already-placed meeting whose start is not
later (stable insertion). -/
def insertByStart (m : Meeting) : List Meeting → List Meeting
  | [] => [m]
  | x :: xs =>
    if m.StartTime < x.StartTime then m :: x :: xs else x :: insertByStart m xs

/-- Model of `sort.Slice(allMeetings, less := StartTime.Before)` in
`refreshMeetings`: the comparator looks only at `StartTime`.  Go uses
pdqsort, which runs plain insertion sort on slices shorter than 12
elements; this stable insertion sort coincides with it there and is a
correct sort for the same comparator on every input. -/
def sortMeetings (ms : List Meeting) : List Meeting :=
  ms.foldl (fun acc m => insertByStart m acc) []

/-! ### Display state: model of `updateTrayDisplay` -/

/-- Model of the tray display outcome. -/
inductive DisplayState where
  | noMeetings
  | inMeeting (m : Meeting)
  | upcoming (m : Meeting)
deriving DecidableEq, Repr

/-- Whether a meeting is current at `now` under the Go test
`now.After(StartTime) && now.Before(EndTime)` (both strict). -/
def isCurrentAt (now : Int) (m : Meeting) : Bool :=
  decide (m.StartTime < now) && decide (now < m.EndTime)

/-- The meeting scan of `updateTrayDisplay`: one pass over the meetings,
overwriting the current meeting on every hit (so the LAST current meeting
in list order wins) and appending upcoming ones in order. -/
def scanMeetings (now : Int) (ms : List Meeting) : Option Meeting × List Meeting :=
  ms.foldl (fun acc m =>
    if isCurrentAt now m then (some m, acc.2)
    else if decide (now < m.StartTime) then (acc.1, acc.2 ++ [m])
    else acc) (none, [])

/-- Model of the state decision in `updateTrayDisplay`. -/
def updateTrayDisplay (ms : List Meeting) (now : Int) : DisplayState :=
  if ms.isEmpty then DisplayState.noMeetings
  else
    match scanMeetings now ms with
    | (some c, _) => DisplayState.inMeeting c
    | (none, u :: _) => DisplayState.upcoming u
    | (none, []) => DisplayState.noMeetings

/-! ### Formatting: `formatDuration`, `truncateTitle`, `formatMeetingDisplay` -/

/-- Model of `formatDuration`.  `int(d.Minutes())` is modelled as integer
division by one minute, which agrees with Go's float64 computation for all
durations up to about 100 days (far beyond the 24-hour aggregation
window). -/
def formatDuration (d : Int) : String :=
  if d < 0 then ("0m")
  else
    let totalMinutes := d / minuteNs
    let hours := totalMinutes / 60
    let minutes := totalMinutes % 60
    if hours > 0 then
      if minutes > 0 then toString hours ++ ("h ") ++ toString minutes ++ ("m")
      else toString hours ++ ("h")
    else if minutes ≤ 0 then ("<1m")
    else toString minutes ++ ("m")

/-- Model of `truncateTitle` (byte indexing modelled on characters; ASCII
coincides). -/
def truncateTitle (c : Config) (title : String) : String :=
  let maxLength := if c.MaxTitleLength ≤ 0 then 25 else c.MaxTitleLength
  if (title.length : Int) > maxLength then
    if maxLength ≤ 3 then String.mk (title.data.take maxLength.toNat)
    else String.mk (title.data.take (maxLength - 3).toNat) ++ ("...")
  else title

/-- Two-digit decimal rendering. -/
def pad2 (n : Int) : String :=
  if n < 10 then ("0") ++ toString n else toString n

/-- Model of `t.Format("15:04")` on the encoded timeline (UTC). -/
def formatHHMM (t : Int) : String :=
  pad2 ((t / hourNs) % 24) ++ (":") ++ pad2 ((t / minuteNs) % 60)

/-- Model of `formatMeetingDisplay`: substitutes `\x7btitle}` always,
`\x7btime_left}` only when rendering a current meeting (`isTimeLeft`),
`\x7btime_until}` only otherwise, then `\x7bstart_time}` and
`\x7bend_time}`. -/
def formatMeetingDisplay (c : Config) (template : String) (meeting : Meeting)
    (timeValue : Int) (isTimeLeft : Bool) : String :=
  let title := truncateTitle c meeting.Title
  let timeStr := formatDuration timeValue
  let r1 := replaceAll template ("{title}") title
  let r2 :=
    if isTimeLeft then replaceAll r1 ("{time_left}") timeStr
    else replaceAll r1 ("{time_until}") timeStr
  let r3 := replaceAll r2 ("{start_time}") (formatHHMM meeting.StartTime)
  replaceAll r3 ("{end_time}") (formatHHMM meeting.EndTime)

/-! ### Notification scheduler: model of `checkForUpcomingMeetings` -/

/-- The inputs one run of `checkForUpcomingMeetings` reads: the
notifications-enabled flag, the lead time (`GetNotificationDuration`),
`time.Now()`, and the current meeting list. -/
structure NotifStep where
  enabled : Bool
  lead : Int
  now : Int
  meetings : List Meeting
deriving Repr

/-- The firing loop of `checkForUpcomingMeetings`: skip already-notified
IDs; fire and mark when `0 < StartTime - now ≤ lead`.  Returns the IDs
fired this cycle and the updated notified set. -/
def fireLoop (lead now : Int) : List Meeting → List String → List String × List String
  | [], notified => ([], notified)
  | m :: rest, notified =>
    if m.ID ∈ notified then fireLoop lead now rest notified
    else if m.StartTime - now ≤ lead ∧ 0 < m.StartTime - now then
      let r := fireLoop lead now rest (m.ID :: notified)
      (m.ID :: r.1, r.2)
    else fireLoop lead now rest notified

/-- The cleanup loop: keep an ID only if some listed meeting has that ID
and has not yet ended (`now.Before(EndTime)`). -/
def pruneNotified (now : Int) (meetings : List Meeting) (notified : List String) :
    List String :=
  notified.filter (fun id =>
    meetings.any (fun m => m.ID == id && decide (now < m.EndTime)))

/-- Model of one run of `checkForUpcomingMeetings`: no-op when
notifications are disabled, otherwise fire-and-mark then prune. -/
def checkForUpcomingMeetings (s : NotifStep) (notified : List String) :
    List String × List String :=
  if !s.enabled then ([], notified)
  else
    let r := fireLoop s.lead s.now s.meetings notified
    (r.1, pruneNotified s.now s.meetings r.2)

/-- Run a sequence of notification cycles, returning the list of fired-ID
lists, one per cycle. -/
def runNotifier : List NotifStep → List String → List (List String)
  | [], _ => []
  | s :: rest, notified =>
    let r := checkForUpcomingMeetings s notified
    r.1 :: runNotifier rest r.2

/-- How many cycles of a run fire a reminder for the given meeting ID. -/
def firedCount (steps : List NotifStep) (init : List String) (tid : String) : Nat :=
  ((runNotifier steps init).filter (fun l => l.contains tid)).length

/-! ### Helper lemmas -/

/-- A configuration used by several concrete checks: all fields at their
documented defaults. -/
def defaultConfig : Config :=
  Config.mk 5 5 true 5 25 ("{title} {time_left} left") ("{title} in {time_until}")

/-- C8 counterexample: the claim says `formatDuration` returns `0m` for
every non-positive duration including exactly zero, but the code only
special-cases strictly negative durations, and a zero duration falls
through to the sub-minute branch and renders as `<1m`. -/
theorem c8_counterexample :
    formatDuration 0 = ("<1m") ∧ (("<1m") : String) ≠ ("0m") := by
  constructor
  · rfl
  · decide

/-- C8 amended: `formatDuration` returns `0m` exactly for strictly
negative durations; a zero or positive sub-minute duration renders as
`<1m`; whole minutes under an hour render as `Xm`, exact hour multiples as
`Xh`, and mixed durations as `Xh Ym`; the spec's concrete examples
(5m, 90m, -1m, 30s) all hold as stated. -/
theorem c8_amended (d : Int) :
    (d < 0 → formatDuration d = ("0m")) ∧
    (0 ≤ d → d < minuteNs → formatDuration d = ("<1m")) ∧
    (∀ k : Int, 1 ≤ k → k < 60 → formatDuration (k * minuteNs) = toString k ++ ("m")) ∧
    (∀ h : Int, 1 ≤ h → formatDuration (h * hourNs) = toString h ++ ("h")) ∧
    (∀ h r : Int, 1 ≤ h → 1 ≤ r → r ≤ 59 →
      formatDuration (h * hourNs + r * minuteNs) =
        toString h ++ ("h ") ++ toString r ++ ("m")) ∧
    formatDuration (5 * minuteNs) = ("5m") ∧
    formatDuration (90 * minuteNs) = ("1h 30m") ∧
    formatDuration (-minuteNs) = ("0m") ∧
    formatDuration (30 * 1000000000) = ("<1m") := by
  have hmpos : (0 : Int) < minuteNs := by norm_num [minuteNs]
  refine ⟨?_, ?_, ?_, ?_, ?_, by rfl, by rfl, by rfl, by rfl⟩
  · intro h
    unfold formatDuration
    rw [if_pos h]
  · intro h0 h1
    have ht : d / minuteNs = 0 := Int.ediv_eq_zero_of_lt h0 h1
    unfold formatDuration
    rw [if_neg (by omega)]
    simp only [ht]
    norm_num
  · intro k hk1 hk2
    have hd0 : ¬ (k * minuteNs < 0) := by nlinarith
    have ht : k * minuteNs / minuteNs = k := Int.mul_ediv_cancel k (by omega)
    have hh : k / 60 = 0 := Int.ediv_eq_zero_of_lt (by omega) hk2
    have hm : k % 60 = k := Int.emod_eq_of_lt (by omega) hk2
    unfold formatDuration
    rw [if_neg hd0]
    simp only [ht, hh, hm]
    rw [if_neg (by omega), if_neg (by omega)]
  · intro h hh1
    have hhour : (0 : Int) < hourNs := by norm_num [hourNs]
    have hd0 : ¬ (h * hourNs < 0) := by
      have := mul_pos (by omega : (0 : Int) < h) hhour
      omega
    have hsplit : h * hourNs = (h * 60) * minuteNs := by
      norm_num [hourNs, minuteNs]; ring
    have ht : h * hourNs / minuteNs = h * 60 := by
      rw [hsplit]; exact Int.mul_ediv_cancel _ (by omega)
    have hhq : h * 60 / 60 = h := Int.mul_ediv_cancel h (by omega)
    have hhm : h * 60 % 60 = 0 := Int.mul_emod_left h 60
    unfold formatDuration
    rw [if_neg hd0]
    simp only [ht, hhq, hhm]
    rw [if_pos (by omega), if_neg (by omega)]
  · intro h r hh1 hr1 hr2
    have hd0 : ¬ (h * hourNs + r * minuteNs < 0) := by
      have h1 := mul_pos (by omega : (0 : Int) < h) (by norm_num [hourNs] : (0 : Int) < hourNs)
      have h2 := mul_pos (by omega : (0 : Int) < r) hmpos
      omega
    have hsplit : h * hourNs + r * minuteNs = (h * 60 + r) * minuteNs := by
      norm_num [hourNs, minuteNs]; ring
    have ht : (h * hourNs + r * minuteNs) / minuteNs = h * 60 + r := by
      rw [hsplit]; exact Int.mul_ediv_cancel _ (by omega)
    have hhq : (h * 60 + r) / 60 = h := by omega
    have hhm : (h * 60 + r) % 60 = r := by omega
    unfold formatDuration
    rw [if_neg hd0]
    simp only [ht, hhq, hhm]
    rw [if_pos (by omega), if_pos (by omega)]

/-- Witness for `c8_amended` at concrete durations. -/
theorem c8_witness :
    formatDuration (-1) = ("0m") ∧ formatDuration (30 * 1000000000) = ("<1m") ∧
    formatDuration (7 * minuteNs) = toString (7 : Int) ++ ("m") ∧
    formatDuration (3 * hourNs) = toString (3 : Int) ++ ("h") ∧
    formatDuration (2 * hourNs + 5 * minuteNs) =
      toString (2 : Int) ++ ("h ") ++ toString (5 : Int) ++ ("m") :=
  ⟨(c8_amended (-1)).1 (by norm_num),
   (c8_amended (30 * 1000000000)).2.1 (by norm_num) (by norm_num [minuteNs]),
   (c8_amended 0).2.2.1 7 (by norm_num) (by norm_num),
   (c8_amended 0).2.2.2.1 3 (by norm_num),
   (c8_amended 0).2.2.2.2.1 2 5 (by norm_num) (by norm_num) (by norm_num)⟩

/-! ### C9: non-positive configuration values -/

/-- An equal-start pair used to exhibit the missing Title tiebreak:
`tieMeetingB` (title `b`) precedes `tieMeetingA` (title `a`) in fetch
order and both start at the same instant. -/
def tieMeetingA : Meeting := Meeting.mk ("a") ("a") minuteNs (2 * minuteNs) none ("") ("") false

/-- See `tieMeetingA`. -/
def tieMeetingB : Meeting := Meeting.mk ("b") ("b") minuteNs (2 * minuteNs) none ("") ("") false

theorem insertByStart_perm (m : Meeting) :
    ∀ l : List Meeting, List.Perm (insertByStart m l) (m :: l) := by
  intro l
  induction l with
  | nil => exact List.Perm.refl _
  | cons x xs ih =>
    unfold insertByStart
    by_cases hlt : m.StartTime < x.StartTime
    · rw [if_pos hlt]
    · rw [if_neg hlt]
      exact List.Perm.trans (List.Perm.cons x ih) (List.Perm.swap m x xs)

theorem mem_insertByStart {y m : Meeting} {l : List Meeting}
    (h : y ∈ insertByStart m l) : y = m ∨ y ∈ l := by
  have := (insertByStart_perm m l).mem_iff.1 h
  simpa using this

theorem pairwise_insertByStart {m : Meeting} {l : List Meeting}
    (h : List.Pairwise (fun a b => a.StartTime ≤ b.StartTime) l) :
    List.Pairwise (fun a b => a.StartTime ≤ b.StartTime) (insertByStart m l) := by
  induction l with
  | nil => simp [insertByStart]
  | cons x xs ih =>
    rcases List.pairwise_cons.1 h with ⟨hx, hxs⟩
    unfold insertByStart
    by_cases hlt : m.StartTime < x.StartTime
    · rw [if_pos hlt]
      refine List.pairwise_cons.2 ⟨?_, h⟩
      intro y hy
      rcases List.mem_cons.1 hy with rfl | hy
      · omega
      · have := hx y hy; omega
    · rw [if_neg hlt]
      refine List.pairwise_cons.2 ⟨?_, ih hxs⟩
      intro y hy
      rcases mem_insertByStart hy with rfl | hy
      · omega
      · exact hx y hy

theorem sortMeetings_aux_pairwise :
    ∀ (ms acc : List Meeting),
      List.Pairwise (fun a b => a.StartTime ≤ b.StartTime) acc →
      List.Pairwise (fun a b => a.StartTime ≤ b.StartTime)
        (ms.foldl (fun acc m => insertByStart m acc) acc) := by
  intro ms
  induction ms with
  | nil => intro acc h; exact h
  | cons m rest ih =>
    intro acc h
    exact ih (insertByStart m acc) (pairwise_insertByStart h)

theorem sortMeetings_aux_perm :
    ∀ (ms acc : List Meeting),
      List.Perm (ms.foldl (fun acc m => insertByStart m acc) acc) (acc ++ ms) := by
  intro ms
  induction ms with
  | nil => intro acc; simp
  | cons m rest ih =>
    intro acc
    refine List.Perm.trans (ih (insertByStart m acc)) ?_
    refine List.Perm.trans (List.Perm.append_right rest (insertByStart_perm m acc)) ?_
    exact List.perm_middle.symm

/-- C2 counterexample: two meetings share a `StartTime` but arrive in
non-lexicographic Title order (`b` before `a`); the published sequence
keeps them in that order, so equal-`StartTime` meetings are NOT ordered by
Title — the comparator passed to `sort.Slice` reads only `StartTime`. -/
theorem c2_counterexample :
    sortMeetings [tieMeetingB, tieMeetingA] = [tieMeetingB, tieMeetingA] ∧
    tieMeetingB.StartTime = tieMeetingA.StartTime ∧
    tieMeetingA.Title = ("a") ∧ tieMeetingB.Title = ("b") ∧
    (('a' : Char) < 'b') ∧
    tieMeetingA.Title ≠ tieMeetingB.Title := by
  refine ⟨by rfl, by rfl, by rfl, by rfl, by decide, by decide⟩

/-- C2 amended: the published sequence is a permutation of the fetched
meetings sorted ascending by `StartTime` alone; nothing orders
equal-`StartTime` meetings by Title (on fewer than 12 meetings the
underlying insertion sort simply keeps their fetch order). -/
theorem c2_amended (ms : List Meeting) :
    List.Pairwise (fun a b => a.StartTime ≤ b.StartTime) (sortMeetings ms) ∧
    List.Perm (sortMeetings ms) ms := by
  constructor
  · exact sortMeetings_aux_pairwise ms [] (by simp)
  · simpa using sortMeetings_aux_perm ms []

/-- Witness for `c2_amended` on a concrete meeting list. -/
theorem c2_witness :
    List.Pairwise (fun a b => a.StartTime ≤ b.StartTime)
      (sortMeetings [tieMeetingA, tieMeetingB]) ∧
    List.Perm (sortMeetings [tieMeetingA, tieMeetingB]) [tieMeetingA, tieMeetingB] :=
  c2_amended [tieMeetingA, tieMeetingB]

/-! ### C3: display state resolution -/

theorem scanMeetings_fst (now : Int) :
    ∀ (ms : List Meeting) (acc : Option Meeting × List Meeting),
      (ms.foldl (fun acc m =>
        if isCurrentAt now m then (some m, acc.2)
        else if decide (now < m.StartTime) then (acc.1, acc.2 ++ [m])
        else acc) acc).1 =
      match (ms.filter (isCurrentAt now)).getLast? with
      | some c => some c
      | none => acc.1 := by
  intro ms
  induction ms with
  | nil => intro acc; rfl
  | cons m rest ih =>
    intro acc
    rw [List.foldl_cons, List.filter_cons]
    by_cases hm : isCurrentAt now m
    · simp only [hm, if_true, ih]
      rcases hrest : (rest.filter (isCurrentAt now)).getLast? with _ | c
      · have hnil : rest.filter (isCurrentAt now) = [] :=
          List.getLast?_eq_none_iff.1 hrest
        simp [hnil]
      · have hne : rest.filter (isCurrentAt now) ≠ [] := by
          intro hc; rw [hc] at hrest; simp at hrest
        rcases hfe : rest.filter (isCurrentAt now) with _ | ⟨f, fs⟩
        · exact absurd hfe hne
        · rw [hfe] at hrest
          simp only [List.getLast?_cons_cons, hfe, hrest]
    · simp only [hm, if_false, Bool.false_eq_true, ih]
      have hfst : ((if decide (now < m.StartTime) then (acc.1, acc.2 ++ [m]) else acc)).1 = acc.1 := by
        by_cases hup : now < m.StartTime <;> simp [hup]
      rw [hfst]

theorem mem_of_getLast?_eq_some :
    ∀ {l : List Meeting} {c : Meeting}, l.getLast? = some c → c ∈ l
  | [], c, h => by simp at h
  | [a], c, h => by
    simp only [List.getLast?_singleton, Option.some.injEq] at h
    simp [h]
  | a :: b :: l, c, h => by
    rw [List.getLast?_cons_cons] at h
    exact List.mem_cons_of_mem a (mem_of_getLast?_eq_some h)

theorem getLast?_filter_mem {p : Meeting → Bool} {l : List Meeting} {c : Meeting}
    (h : (l.filter p).getLast? = some c) : c ∈ l ∧ p c = true :=
  List.mem_filter.1 (mem_of_getLast?_eq_some h)

/-- The overlapping pair for the C3 counterexample: `overlapEarly` starts
first, `overlapLate` starts during it; both are in progress at the probe
instant. -/
def overlapEarly : Meeting := Meeting.mk ("a") ("a") 0 (100 * minuteNs) none ("") ("") false

/-- See `overlapEarly`. -/
def overlapLate : Meeting := Meeting.mk ("b") ("b") (10 * minuteNs) (100 * minuteNs) none ("") ("") false

/-- A meeting whose start equals the probe instant for the boundary case. -/
def boundaryMeeting : Meeting := Meeting.mk ("x") ("x") 0 (100 * minuteNs) none ("") ("") false

/-- C3 counterexample: (a) with two overlapping meetings the display shows
the LATEST-starting one, not the earliest-starting canonical meeting the
claim requires; (b) at `now` exactly equal to `StartTime` the claim
requires `InMeeting` (`StartTime ≤ now < EndTime`), but the strict
`now.After(StartTime)` test yields `NoMeetings`. -/
theorem c3_counterexample :
    updateTrayDisplay [overlapEarly, overlapLate] (50 * minuteNs) =
      DisplayState.inMeeting overlapLate ∧
    overlapEarly.StartTime < overlapLate.StartTime ∧
    overlapEarly.StartTime ≤ 50 * minuteNs ∧ 50 * minuteNs < overlapEarly.EndTime ∧
    overlapEarly ≠ overlapLate ∧
    updateTrayDisplay [boundaryMeeting] 0 = DisplayState.noMeetings ∧
    boundaryMeeting.StartTime ≤ 0 ∧ 0 < boundaryMeeting.EndTime := by
  refine ⟨by rfl, by decide, by decide, by decide, by decide, by rfl, by decide, by decide⟩

/-- C3 amended: the display is `InMeeting` exactly when some meeting
satisfies the STRICT test `StartTime < now < EndTime` (a meeting at
`now = StartTime` counts as neither current nor upcoming), and when
several overlap the canonical meeting is the LAST such meeting in list
order — for the published start-sorted sequence, the latest-starting one,
not the earliest. -/
theorem c3_amended (ms : List Meeting) (now : Int) :
    ((∃ m ∈ ms, m.StartTime < now ∧ now < m.EndTime) ↔
      ∃ c, updateTrayDisplay ms now = DisplayState.inMeeting c) ∧
    (∀ c, updateTrayDisplay ms now = DisplayState.inMeeting c →
      (ms.filter (isCurrentAt now)).getLast? = some c ∧ c ∈ ms ∧
        c.StartTime < now ∧ now < c.EndTime) := by
  have hscan := scanMeetings_fst now ms (none, [])
  constructor
  · constructor
    · rintro ⟨m, hm, h1, h2⟩
      have hcur : isCurrentAt now m = true := by
        unfold isCurrentAt; simp [h1, h2]
      have hne : ms.filter (isCurrentAt now) ≠ [] := by
        intro hc
        have : m ∈ ms.filter (isCurrentAt now) := List.mem_filter.2 ⟨hm, hcur⟩
        rw [hc] at this; simp at this
      rcases hlast : (ms.filter (isCurrentAt now)).getLast? with _ | c
      · exact absurd (List.getLast?_eq_none_iff.1 hlast) hne
      · refine ⟨c, ?_⟩
        have hms : ¬ ms.isEmpty = true := by
          intro hc
          rw [List.isEmpty_iff.1 hc] at hm; simp at hm
        unfold updateTrayDisplay scanMeetings
        rw [if_neg hms]
        rw [hlast] at hscan
        rcases hpair : ms.foldl (fun acc m =>
          if isCurrentAt now m then (some m, acc.2)
          else if decide (now < m.StartTime) then (acc.1, acc.2 ++ [m])
          else acc) (none, []) with ⟨o, u⟩
        rw [hpair] at hscan
        simp only at hscan
        rw [hscan]
    · rintro ⟨c, hc⟩
      unfold updateTrayDisplay scanMeetings at hc
      by_cases hms : ms.isEmpty = true
      · rw [if_pos hms] at hc; exact absurd hc (by simp)
      · rw [if_neg hms] at hc
        rcases hpair : ms.foldl (fun acc m =>
          if isCurrentAt now m then (some m, acc.2)
          else if decide (now < m.StartTime) then (acc.1, acc.2 ++ [m])
          else acc) (none, []) with ⟨o, u⟩
        rw [hpair] at hc hscan
        simp only at hscan
        rcases o with _ | c'
        · rcases u with _ | ⟨u0, us⟩ <;> simp at hc
        · have : c' = c := by
            simpa using hc
          subst this
          rcases hlast : (ms.filter (isCurrentAt now)).getLast? with _ | c0
          · rw [hlast] at hscan; simp at hscan
          · rw [hlast] at hscan
            simp only at hscan
            have hcc : c' = c0 := Option.some.inj hscan
            subst hcc
            have := getLast?_filter_mem hlast
            unfold isCurrentAt at this
            rcases this with ⟨hmem, hcond⟩
            simp only [Bool.and_eq_true, decide_eq_true_eq] at hcond
            exact ⟨c', hmem, hcond.1, hcond.2⟩
  · intro c hc
    unfold updateTrayDisplay scanMeetings at hc
    by_cases hms : ms.isEmpty = true
    · rw [if_pos hms] at hc; exact absurd hc (by simp)
    · rw [if_neg hms] at hc
      rcases hpair : ms.foldl (fun acc m =>
        if isCurrentAt now m then (some m, acc.2)
        else if decide (now < m.StartTime) then (acc.1, acc.2 ++ [m])
        else acc) (none, []) with ⟨o, u⟩
      rw [hpair] at hc hscan
      simp only at hscan
      rcases o with _ | c'
      · rcases u with _ | ⟨u0, us⟩ <;> simp at hc
      · have : c' = c := by simpa using hc
        subst this
        rcases hlast : (ms.filter (isCurrentAt now)).getLast? with _ | c0
        · rw [hlast] at hscan; simp at hscan
        · rw [hlast] at hscan
          simp only at hscan
          have hcc : c' = c0 := Option.some.inj hscan
          subst hcc
          have hmf := getLast?_filter_mem hlast
          rcases hmf with ⟨hmem, hcond⟩
          unfold isCurrentAt at hcond
          simp only [Bool.and_eq_true, decide_eq_true_eq] at hcond
          exact ⟨rfl, hmem, hcond.1, hcond.2⟩

/-- Witness for `c3_amended` on a concrete overlapping pair. -/
theorem c3_witness :
    ((∃ m ∈ [overlapEarly, overlapLate],
        m.StartTime < 50 * minuteNs ∧ 50 * minuteNs < m.EndTime) ↔
      ∃ c, updateTrayDisplay [overlapEarly, overlapLate] (50 * minuteNs) =
        DisplayState.inMeeting c) ∧
    (∀ c, updateTrayDisplay [overlapEarly, overlapLate] (50 * minuteNs) =
        DisplayState.inMeeting c →
      (([overlapEarly, overlapLate]).filter (isCurrentAt (50 * minuteNs))).getLast? = some c ∧
        c ∈ [overlapEarly, overlapLate] ∧
        c.StartTime < 50 * minuteNs ∧ 50 * minuteNs < c.EndTime) :=
  c3_amended [overlapEarly, overlapLate] (50 * minuteNs)

/-! ### C1: cancelled and all-day filtering -/

/-- C1 counterexample: an iCalendar object that is both cancelled
(`STATUS:CANCELLED`) and all-day (date-only `DTSTART`) is still parsed
into a Meeting by the GNOME backend's `parseCalendarObject` — the parser
reads only `SUMMARY`, `DTSTART`, `DTEND` and `LOCATION`, never the status,
and never marks date-only events (`IsAllDay` stays `false`) — so such
events do reach the aggregated output on the GNOME path. -/
theorem c1_counterexample :
    parseCalendarObject
        ("BEGIN:VEVENT\nSUMMARY:Standup\nDTSTART:20250101\nDTEND:20250102\nSTATUS:CANCELLED\nEND:VEVENT") =
      some (Meeting.mk ("") ("Standup") (encodeTime 2025 1 1 0 0 0)
        (encodeTime 2025 1 2 0 0 0) none ("") ("") false) := by
  rfl

/-- C1 amended: the rejection of cancelled and all-day events holds for
the Google backend's `convertEventToMeeting` — a cancelled event is
dropped, and so is any event whose start carries no timed `DateTime`
(the date-only/all-day case) — but the GNOME backend's iCalendar parsing
performs no such filtering (see the counterexample). -/
theorem c1_amended :
    (∀ (e : Event) (cal acc : String), e.Status = ("cancelled") →
      convertEventToMeeting e cal acc = none) ∧
    (∀ (e : Event) (cal acc : String) (st : EventDateTime), e.Start = some st →
      st.DateTime = ("") → convertEventToMeeting e cal acc = none) := by
  constructor
  · intro e cal acc h
    have hb : (e.Status == ("cancelled")) = true := by simp [h]
    unfold convertEventToMeeting
    rw [hb]
    simp
  · intro e cal acc st hst hdt
    unfold convertEventToMeeting
    rw [hst]
    by_cases hc : (e.Status == ("cancelled")) = true
    · simp [hc]
    · simp only [Option.isNone_some, Bool.false_or]
      rw [if_neg hc]
      simp only [hdt]
      rw [if_neg (by decide)]
      split
      · cases parseDateOnly st.Date <;> rfl
      · rfl

/-- Witness for `c1_amended` on concrete cancelled and all-day events. -/
theorem c1_witness :
    convertEventToMeeting
      (Event.mk ("e1") ("T") ("") ("") ("cancelled")
        (some (EventDateTime.mk ("2025-01-01T10:00:00Z") (""))) none none) ("c") ("a") = none ∧
    convertEventToMeeting
      (Event.mk ("e2") ("T") ("") ("") ("confirmed")
        (some (EventDateTime.mk ("") ("2025-01-01"))) none none) ("c") ("a") = none :=
  ⟨c1_amended.1 _ ("c") ("a") rfl,
   c1_amended.2 _ ("c") ("a") (EventDateTime.mk ("") ("2025-01-01")) rfl rfl⟩

/-! ### C6: link resolution order -/

/-- The Google event used in the C6 counterexample: no conference data, a
Zoom link in the description AND a different Zoom link in the location. -/
def zoomBothEvent : Event :=
  Event.mk ("e1") ("Sync") ("Join: https://zoom.us/j/111") ("https://zoom.us/j/222")
    ("confirmed") (some (EventDateTime.mk ("2025-01-01T10:00:00Z") ("")))
    (some (EventDateTime.mk ("2025-01-01T11:00:00Z") (""))) none

/-- C6 counterexample: with the same provider (Zoom) in both fields and no
native conference data, the resolved primary link is the DESCRIPTION's URL
(`…/j/111`), not the location's (`…/j/222`): `ParseMeetingLinks` joins
description before location, so the description's match comes first. -/
theorem c6_counterexample :
    Option.map Meeting.MeetingLink (convertEventToMeeting zoomBothEvent ("cal") ("acc")) =
      some (some (MeetingLink.mk ("https://zoom.us/j/111") MeetingType.zoom)) ∧
    zoomBothEvent.Location = ("https://zoom.us/j/222") ∧
    (("https://zoom.us/j/111") : String) ≠ ("https://zoom.us/j/222") := by
  refine ⟨by rfl, by rfl, by decide⟩

/-- The selection rule `GetPrimaryMeetingLink` implements, written out
explicitly for comparison: matches are grouped PER REGEX in the source's
order (GoogleMeet, `teams.microsoft.com`, `teams.live.com`, `zoom.us/j`,
`zoom.us/my`), each group listing its matches in text order over the
description joined before the location, and the primary link is the first
match of the highest-priority provider's groups.  Proved equal to
`GetPrimaryMeetingLink` below. -/
def primaryByGroups (description location : String) : Option MeetingLink :=
  let text := (description ++ (" ") ++ location).data
  match findAll googleMeetAt text with
  | g :: _ => some (MeetingLink.mk (String.mk g) MeetingType.meet)
  | [] =>
    match findAll teamsAt text ++ findAll teamsLiveAt text with
    | t :: _ => some (MeetingLink.mk (String.mk t) MeetingType.teams)
    | [] =>
      match findAll zoomAt text ++ findAll zoomMyAt text with
      | z :: _ => some (MeetingLink.mk (String.mk z) MeetingType.zoom)
      | [] => none

theorem find?_type_map_cons (τ : MeetingType) (x : List Char)
    (xs : List (List Char)) (rest : List MeetingLink) :
    List.find? (fun y => y.type == τ)
      ((x :: xs).map (fun m => MeetingLink.mk (String.mk m) τ) ++ rest) =
      some (MeetingLink.mk (String.mk x) τ) := by
  simp only [List.map_cons, List.cons_append]
  exact List.find?_cons_of_pos _ (by simp)

theorem find?_type_map_ne (τ τ' : MeetingType) (h : (τ == τ') = false)
    (xs : List (List Char)) (rest : List MeetingLink) :
    List.find? (fun y => y.type == τ')
      (xs.map (fun m => MeetingLink.mk (String.mk m) τ) ++ rest) =
      List.find? (fun y => y.type == τ') rest := by
  induction xs with
  | nil => simp
  | cons x xs ih =>
    simp only [List.map_cons, List.cons_append]
    rw [List.find?_cons_of_neg _ (by simp [h])]
    exact ih

theorem find?_type_map_ne_nil (τ τ' : MeetingType) (h : (τ == τ') = false)
    (xs : List (List Char)) :
    List.find? (fun y => y.type == τ')
      (xs.map (fun m => MeetingLink.mk (String.mk m) τ)) = none := by
  have := find?_type_map_ne τ τ' h xs []
  simpa using this

/-- C6 amended: when an event has no qualifying native conference-data
entry, `convertEventToMeeting` resolves the link as
`GetPrimaryMeetingLink(description, location)`, whose selection is by
regex GROUP in the source's fixed order, each group in text order over the
description joined BEFORE the location (`primaryByGroups`).  So within one
pattern the description's match beats the location's (refuting the claimed
location precedence), while across two patterns of the same provider the
earlier pattern's match wins even from the location field
(`teams.microsoft.com/l/meetup-join` over `teams.live.com/meet`, and
`zoom.us/j` over `zoom.us/my`).  A native video entry containing
`meet.google.com` still takes precedence over both fields. -/
theorem c6_amended :
    (∀ e : Event, conferenceLink e = none →
      resolveMeetingLink e = GetPrimaryMeetingLink e.Description e.Location) ∧
    (∀ (e : Event) (l : MeetingLink), conferenceLink e = some l →
      resolveMeetingLink e = some l) ∧
    (∀ (e : Event) (cal acc : String) (m : Meeting),
      convertEventToMeeting e cal acc = some m →
      m.MeetingLink = resolveMeetingLink e) ∧
    (∀ d l : String, GetPrimaryMeetingLink d l = primaryByGroups d l) ∧
    GetPrimaryMeetingLink ("Join: https://zoom.us/j/111") ("https://zoom.us/j/222") =
      some (MeetingLink.mk ("https://zoom.us/j/111") MeetingType.zoom) ∧
    GetPrimaryMeetingLink ("https://teams.live.com/meet/abc")
        ("https://teams.microsoft.com/l/meetup-join/xyz") =
      some (MeetingLink.mk ("https://teams.microsoft.com/l/meetup-join/xyz")
        MeetingType.teams) ∧
    GetPrimaryMeetingLink ("https://zoom.us/my/alice") ("https://zoom.us/j/777") =
      some (MeetingLink.mk ("https://zoom.us/j/777") MeetingType.zoom) := by
  refine ⟨?_, ?_, ?_, ?_, by rfl, by rfl, by rfl⟩
  · intro e h
    unfold resolveMeetingLink
    rw [h]
  · intro e l h
    unfold resolveMeetingLink
    rw [h]
  · intro e cal acc m h
    unfold convertEventToMeeting at h
    split at h
    · exact absurd h (by simp)
    · split at h
      · exact absurd h (by simp)
      · split at h
        · split at h
          · exact absurd h (by simp)
          · have hm := Option.some.inj h
            rw [← hm]
        · split at h
          · split at h <;> exact absurd h (by simp)
          · exact absurd h (by simp)
  · intro d l
    unfold GetPrimaryMeetingLink ParseMeetingLinks primaryByGroups
    simp only []
    rcases hG : findAll googleMeetAt ((d ++ (" ") ++ l).data) with _ | ⟨g, gs⟩
    · simp only [List.map_nil, List.nil_append]
      rcases hT1 : findAll teamsAt ((d ++ (" ") ++ l).data) with _ | ⟨t, ts⟩
      · simp only [List.map_nil, List.nil_append]
        rcases hT2 : findAll teamsLiveAt ((d ++ (" ") ++ l).data) with _ | ⟨t, ts⟩
        · simp only [List.map_nil, List.nil_append]
          rcases hZ1 : findAll zoomAt ((d ++ (" ") ++ l).data) with _ | ⟨z, zs⟩
          · simp only [List.map_nil, List.nil_append]
            rcases hZ2 : findAll zoomMyAt ((d ++ (" ") ++ l).data) with _ | ⟨z, zs⟩
            · simp
            · rw [if_neg (by simp)]
              rw [find?_type_map_ne_nil MeetingType.zoom MeetingType.meet (by rfl) (z :: zs),
                find?_type_map_ne_nil MeetingType.zoom MeetingType.teams (by rfl) (z :: zs)]
              have hzz : List.find? (fun y => y.type == MeetingType.zoom)
                  ((z :: zs).map (fun m => MeetingLink.mk (String.mk m) MeetingType.zoom)) =
                  some (MeetingLink.mk (String.mk z) MeetingType.zoom) := by
                have := find?_type_map_cons MeetingType.zoom z zs []
                rw [List.append_nil] at this
                exact this
              rw [hzz]
          · rw [if_neg (by simp)]
            rw [find?_type_map_ne MeetingType.zoom MeetingType.meet (by rfl) (z :: zs) _,
              find?_type_map_ne_nil MeetingType.zoom MeetingType.meet (by rfl) _,
              find?_type_map_ne MeetingType.zoom MeetingType.teams (by rfl) (z :: zs) _,
              find?_type_map_ne_nil MeetingType.zoom MeetingType.teams (by rfl) _,
              find?_type_map_cons MeetingType.zoom z zs _]
            rfl
        · simp only [List.append_assoc]
          rw [if_neg (by simp)]
          rw [find?_type_map_ne MeetingType.teams MeetingType.meet (by rfl) (t :: ts) _,
            find?_type_map_ne MeetingType.zoom MeetingType.meet (by rfl) _ _,
            find?_type_map_ne_nil MeetingType.zoom MeetingType.meet (by rfl) _,
            find?_type_map_cons MeetingType.teams t ts _]
      · simp only [List.append_assoc]
        rw [if_neg (by simp)]
        rw [find?_type_map_ne MeetingType.teams MeetingType.meet (by rfl) (t :: ts) _,
          find?_type_map_ne MeetingType.teams MeetingType.meet (by rfl) _ _,
          find?_type_map_ne MeetingType.zoom MeetingType.meet (by rfl) _ _,
          find?_type_map_ne_nil MeetingType.zoom MeetingType.meet (by rfl) _,
          find?_type_map_cons MeetingType.teams t ts _]
        simp [List.cons_append]
    · simp only [List.append_assoc]
      rw [if_neg (by simp)]
      rw [find?_type_map_cons MeetingType.meet g gs _]

/-- Witness for `c6_amended`: the fallback equation and the tie to
`convertEventToMeeting` at the concrete two-Zoom event, and the group
characterization at the cross-pattern Zoom texts. -/
theorem c6_witness :
    resolveMeetingLink zoomBothEvent =
      GetPrimaryMeetingLink zoomBothEvent.Description zoomBothEvent.Location ∧
    (Meeting.mk ("e1") ("Sync") (encodeTime 2025 1 1 10 0 0) (encodeTime 2025 1 1 11 0 0)
        (some (MeetingLink.mk ("https://zoom.us/j/111") MeetingType.zoom))
        ("cal") ("acc") false).MeetingLink = resolveMeetingLink zoomBothEvent ∧
    GetPrimaryMeetingLink ("https://zoom.us/my/alice") ("https://zoom.us/j/777") =
      primaryByGroups ("https://zoom.us/my/alice") ("https://zoom.us/j/777") :=
  ⟨c6_amended.1 zoomBothEvent rfl,
   c6_amended.2.2.1 zoomBothEvent ("cal") ("acc") _ rfl,
   c6_amended.2.2.2.1 ("https://zoom.us/my/alice") ("https://zoom.us/j/777")⟩

/-! ### C4: primary-link priority -/

/-- C4 confirmed: `GetPrimaryMeetingLink` selects over the extracted set by
the fixed order GoogleMeet > Teams > Zoom (falling back to the first link,
and to `none` when nothing was extracted), always returning a member of the
extracted set; in particular GoogleMeet+Zoom text yields the GoogleMeet
link and a Teams+Zoom description with empty location yields the Teams
link. -/
theorem c4_theorem :
    (∀ d l : String, (∃ x ∈ ParseMeetingLinks d l, x.type = MeetingType.meet) →
      ∃ ml, GetPrimaryMeetingLink d l = some ml ∧ ml.type = MeetingType.meet) ∧
    (∀ d l : String, (∀ x ∈ ParseMeetingLinks d l, x.type ≠ MeetingType.meet) →
      (∃ x ∈ ParseMeetingLinks d l, x.type = MeetingType.teams) →
      ∃ ml, GetPrimaryMeetingLink d l = some ml ∧ ml.type = MeetingType.teams) ∧
    (∀ d l : String,
      (∀ x ∈ ParseMeetingLinks d l,
        x.type ≠ MeetingType.meet ∧ x.type ≠ MeetingType.teams) →
      (∃ x ∈ ParseMeetingLinks d l, x.type = MeetingType.zoom) →
      ∃ ml, GetPrimaryMeetingLink d l = some ml ∧ ml.type = MeetingType.zoom) ∧
    (∀ (d l : String) (ml : MeetingLink),
      GetPrimaryMeetingLink d l = some ml → ml ∈ ParseMeetingLinks d l) ∧
    (∀ d l : String, ParseMeetingLinks d l = [] → GetPrimaryMeetingLink d l = none) ∧
    GetPrimaryMeetingLink ("")
        ("https://meet.google.com/abc-defg and https://zoom.us/j/123") =
      some (MeetingLink.mk ("https://meet.google.com/abc-defg") MeetingType.meet) ∧
    GetPrimaryMeetingLink
        ("Join https://teams.microsoft.com/l/meetup-join/abc123 or https://zoom.us/j/555")
        ("") =
      some (MeetingLink.mk ("https://teams.microsoft.com/l/meetup-join/abc123")
        MeetingType.teams) := by
  refine ⟨?_, ?_, ?_, ?_, ?_, by rfl, by rfl⟩
  · rintro d l ⟨x, hx, hxt⟩
    have hne : ¬ (ParseMeetingLinks d l).isEmpty = true := by
      intro hc
      rw [List.isEmpty_iff.1 hc] at hx
      simp at hx
    have hs : ((ParseMeetingLinks d l).find?
        (fun y => y.type == MeetingType.meet)).isSome = true :=
      List.find?_isSome.2 ⟨x, hx, by simp [hxt]⟩
    obtain ⟨y, hy⟩ := Option.isSome_iff_exists.1 hs
    have hyt := List.find?_some hy
    refine ⟨y, ?_, by simpa using hyt⟩
    unfold GetPrimaryMeetingLink
    rw [if_neg hne, hy]
  · rintro d l hno ⟨x, hx, hxt⟩
    have hne : ¬ (ParseMeetingLinks d l).isEmpty = true := by
      intro hc
      rw [List.isEmpty_iff.1 hc] at hx
      simp at hx
    have hf1 : (ParseMeetingLinks d l).find? (fun y => y.type == MeetingType.meet) = none :=
      List.find?_eq_none.2 (fun x hx => by simp [hno x hx])
    have hs : ((ParseMeetingLinks d l).find?
        (fun y => y.type == MeetingType.teams)).isSome = true :=
      List.find?_isSome.2 ⟨x, hx, by simp [hxt]⟩
    obtain ⟨y, hy⟩ := Option.isSome_iff_exists.1 hs
    have hyt := List.find?_some hy
    refine ⟨y, ?_, by simpa using hyt⟩
    unfold GetPrimaryMeetingLink
    rw [if_neg hne, hf1, hy]
  · rintro d l hno ⟨x, hx, hxt⟩
    have hne : ¬ (ParseMeetingLinks d l).isEmpty = true := by
      intro hc
      rw [List.isEmpty_iff.1 hc] at hx
      simp at hx
    have hf1 : (ParseMeetingLinks d l).find? (fun y => y.type == MeetingType.meet) = none :=
      List.find?_eq_none.2 (fun x hx => by simp [(hno x hx).1])
    have hf2 : (ParseMeetingLinks d l).find? (fun y => y.type == MeetingType.teams) = none :=
      List.find?_eq_none.2 (fun x hx => by simp [(hno x hx).2])
    have hs : ((ParseMeetingLinks d l).find?
        (fun y => y.type == MeetingType.zoom)).isSome = true :=
      List.find?_isSome.2 ⟨x, hx, by simp [hxt]⟩
    obtain ⟨y, hy⟩ := Option.isSome_iff_exists.1 hs
    have hyt := List.find?_some hy
    refine ⟨y, ?_, by simpa using hyt⟩
    unfold GetPrimaryMeetingLink
    rw [if_neg hne, hf1, hf2, hy]
  · intro d l ml h
    unfold GetPrimaryMeetingLink at h
    by_cases hne : (ParseMeetingLinks d l).isEmpty = true
    · rw [if_pos hne] at h
      exact absurd h (by simp)
    · rw [if_neg hne] at h
      rcases hf1 : (ParseMeetingLinks d l).find? (fun y => y.type == MeetingType.meet)
        with _ | y1
      · rw [hf1] at h
        rcases hf2 : (ParseMeetingLinks d l).find? (fun y => y.type == MeetingType.teams)
          with _ | y2
        · rw [hf2] at h
          rcases hf3 : (ParseMeetingLinks d l).find? (fun y => y.type == MeetingType.zoom)
            with _ | y3
          · rw [hf3] at h
            rcases hl : ParseMeetingLinks d l with _ | ⟨c, cs⟩
            · rw [hl] at h; exact absurd h (by simp)
            · rw [hl] at h
              have : c = ml := by simpa using h
              rw [← this]
              simp
          · rw [hf3] at h
            have : y3 = ml := by simpa using h
            rw [← this]
            exact List.mem_of_find?_eq_some hf3
        · rw [hf2] at h
          have : y2 = ml := by simpa using h
          rw [← this]
          exact List.mem_of_find?_eq_some hf2
      · rw [hf1] at h
        have : y1 = ml := by simpa using h
        rw [← this]
        exact List.mem_of_find?_eq_some hf1
  · intro d l h
    unfold GetPrimaryMeetingLink
    rw [if_pos (by simp [h])]

/-- Witness for `c4_theorem` at concrete texts. -/
theorem c4_witness :
    (∃ ml, GetPrimaryMeetingLink ("")
        ("see https://meet.google.com/xyz and https://zoom.us/j/9") = some ml ∧
      ml.type = MeetingType.meet) ∧
    (∃ ml, GetPrimaryMeetingLink ("https://teams.live.com/meet/q and https://zoom.us/j/1")
        ("") = some ml ∧ ml.type = MeetingType.teams) :=
  ⟨c4_theorem.1 ("") ("see https://meet.google.com/xyz and https://zoom.us/j/9")
      (by decide),
   c4_theorem.2.1 ("https://teams.live.com/meet/q and https://zoom.us/j/1") ("")
      (by decide) (by decide)⟩

/-! ### C7: the GoogleMeet URL pattern -/

theorem stripLit_append : ∀ (l t : List Char), stripLit l (l ++ t) = some t
  | [], _ => rfl
  | a :: l, t => by simp [stripLit, stripLit_append l t]

theorem stripLit_cons_ne {a b : Char} (l t : List Char) (h : ¬ a = b) :
    stripLit (a :: l) (b :: t) = none := by
  simp [stripLit, h]

theorem matchCore_full (lit : List Char) (cls : Char → Bool) (slug : List Char)
    (h1 : slug ≠ []) (h2 : ∀ c ∈ slug, cls c = true) :
    matchCore lit cls (lit ++ slug) = some (lit ++ slug, []) := by
  have hne : ¬ slug.isEmpty = true := by
    cases slug with
    | nil => exact absurd rfl h1
    | cons c cs => simp
  unfold matchCore
  rw [stripLit_append]
  simp only [List.takeWhile_eq_self_iff.2 h2, hne, Bool.false_eq_true, if_false,
    List.drop_length]

/-- C7 counterexample: the Go regex `https?://meet\.google\.com/[a-z-]+`
is case-sensitive and its slug class has NO digits, contrary to the claim:
an all-digit slug (`/123`) produces no match at all, an upper-cased URL
produces no match at all, and `/abc-123` is matched only up to `abc-`. -/
theorem c7_counterexample :
    ParseMeetingLinks ("") ("https://meet.google.com/123") = [] ∧
    ParseMeetingLinks ("") ("HTTPS://MEET.GOOGLE.COM/abc") = [] ∧
    ParseMeetingLinks ("") ("https://meet.google.com/abc-123") =
      [MeetingLink.mk ("https://meet.google.com/abc-") MeetingType.meet] := by
  refine ⟨by rfl, by rfl, by rfl⟩

/-- C7 amended: the pattern is case-sensitive and its slug alphabet is
exactly lowercase letters and hyphens: for every non-empty slug over
`[a-z-]` the matcher accepts the whole URL (and nothing else), while the
same URL with an upper-cased prefix is not matched at all. -/
theorem c7_amended (slug : List Char) (h1 : slug ≠ [])
    (h2 : ∀ c ∈ slug, googleSlugChar c = true) :
    googleMeetAt (("https://meet.google.com/").data ++ slug) =
      some (("https://meet.google.com/").data ++ slug, []) ∧
    googleMeetAt (("HTTPS://MEET.GOOGLE.COM/").data ++ slug) = none := by
  constructor
  · have hdecomp : ("https://meet.google.com/").data =
        ("https").data ++ ("://meet.google.com/").data := by rfl
    unfold googleMeetAt withScheme
    rw [hdecomp, List.append_assoc, stripLit_append]
    simp only [matchCore_full (("://meet.google.com/").data) googleSlugChar slug h1 h2]
  · have hH : ("HTTPS://MEET.GOOGLE.COM/").data =
        'H' :: ("TTPS://MEET.GOOGLE.COM/").data := by rfl
    have hS : ("https").data = 'h' :: ("ttps").data := by rfl
    have hT : ("http").data = 'h' :: ("ttp").data := by rfl
    unfold googleMeetAt withScheme
    rw [hH, List.cons_append, hS, hT,
      stripLit_cons_ne _ _ (by decide), stripLit_cons_ne _ _ (by decide)]

/-- Witness for `c7_amended` at the concrete slug `abc`. -/
theorem c7_witness :
    googleMeetAt (("https://meet.google.com/").data ++ ['a', 'b', 'c']) =
      some (("https://meet.google.com/").data ++ ['a', 'b', 'c'], []) ∧
    googleMeetAt (("HTTPS://MEET.GOOGLE.COM/").data ++ ['a', 'b', 'c']) = none :=
  c7_amended ['a', 'b', 'c'] (by decide) (by decide)

/-! ### C10: template substitution -/

theorem replaceAllFuel_of_not_occurs (pc : Char) (pt r : List Char) :
    ∀ (n : Nat) (t : List Char), occursL (pc :: pt) t = false →
      replaceAllFuel pc pt r n t = t := by
  intro n
  induction n with
  | zero => intro t _; rfl
  | succ n ih =>
    intro t h
    cases t with
    | nil => rfl
    | cons c rest =>
      unfold occursL at h
      rw [Bool.or_eq_false_iff] at h
      unfold replaceAllFuel
      rw [h.1]
      simp only [Bool.false_eq_true, if_false]
      rw [ih rest h.2]

theorem replaceAll_of_not_contains (s pattern repl : String)
    (h : containsSub s pattern = false) : replaceAll s pattern repl = s := by
  unfold replaceAll
  split
  · rfl
  · next pc pt hp =>
    unfold containsSub at h
    rw [hp] at h
    rw [replaceAllFuel_of_not_occurs pc pt repl.data s.data.length s.data h]

/-- The concrete meeting used in the rendering checks: 10:30-11:00. -/
def displayMeeting : Meeting :=
  Meeting.mk ("i") ("Standup") (10 * hourNs + 30 * minuteNs) (11 * hourNs) none ("") ("") false

/-- C10 confirmed: `formatMeetingDisplay` substitutes `\x7btitle}`,
`\x7bstart_time}` and `\x7bend_time}` in both modes, substitutes
`\x7btime_left}` only when rendering a current meeting and
`\x7btime_until}` only when rendering an upcoming one, and leaves the
other mode's placeholder verbatim: any template free of the placeholders a
mode substitutes is returned unchanged by that mode. -/
theorem c10_theorem :
    (∀ (c : Config) (tmpl : String) (m : Meeting) (d : Int),
      containsSub tmpl ("{title}") = false →
      containsSub tmpl ("{time_left}") = false →
      containsSub tmpl ("{start_time}") = false →
      containsSub tmpl ("{end_time}") = false →
      formatMeetingDisplay c tmpl m d true = tmpl) ∧
    (∀ (c : Config) (tmpl : String) (m : Meeting) (d : Int),
      containsSub tmpl ("{title}") = false →
      containsSub tmpl ("{time_until}") = false →
      containsSub tmpl ("{start_time}") = false →
      containsSub tmpl ("{end_time}") = false →
      formatMeetingDisplay c tmpl m d false = tmpl) ∧
    formatMeetingDisplay defaultConfig ("{title} in {time_until}") displayMeeting
      (15 * minuteNs) true = ("Standup in {time_until}") ∧
    formatMeetingDisplay defaultConfig ("{title} {time_left} left") displayMeeting
      (20 * minuteNs) false = ("Standup {time_left} left") ∧
    formatMeetingDisplay defaultConfig ("{title}|{start_time}|{end_time}|{time_left}")
      displayMeeting (20 * minuteNs) true = ("Standup|10:30|11:00|20m") ∧
    formatMeetingDisplay defaultConfig ("{title}|{start_time}|{end_time}|{time_until}")
      displayMeeting (20 * minuteNs) false = ("Standup|10:30|11:00|20m") := by
  refine ⟨?_, ?_, by rfl, by rfl, by rfl, by rfl⟩
  · intro c tmpl m d h1 h2 h3 h4
    unfold formatMeetingDisplay
    simp only []
    rw [replaceAll_of_not_contains _ _ _ h1, if_pos trivial,
      replaceAll_of_not_contains _ _ _ h2,
      replaceAll_of_not_contains _ _ _ h3,
      replaceAll_of_not_contains _ _ _ h4]
  · intro c tmpl m d h1 h2 h3 h4
    unfold formatMeetingDisplay
    simp only []
    rw [replaceAll_of_not_contains _ _ _ h1, if_neg (by simp),
      replaceAll_of_not_contains _ _ _ h2,
      replaceAll_of_not_contains _ _ _ h3,
      replaceAll_of_not_contains _ _ _ h4]

/-- Witness for `c10_theorem`: a template naming only the other mode's
placeholder passes through each mode unchanged. -/
theorem c10_witness :
    formatMeetingDisplay defaultConfig ("wait {time_until}") displayMeeting
      (3 * minuteNs) true = ("wait {time_until}") ∧
    formatMeetingDisplay defaultConfig ("go {time_left}") displayMeeting
      (3 * minuteNs) false = ("go {time_left}") :=
  ⟨c10_theorem.1 defaultConfig ("wait {time_until}") displayMeeting (3 * minuteNs)
      (by rfl) (by rfl) (by rfl) (by rfl),
   c10_theorem.2.1 defaultConfig ("go {time_left}") displayMeeting (3 * minuteNs)
      (by rfl) (by rfl) (by rfl) (by rfl)⟩

/-! ### C5: at-most-once notification -/

theorem fireLoop_snd_mem (lead now : Int) (tid : String) :
    ∀ (ms : List Meeting) (notified : List String), tid ∈ notified →
      tid ∈ (fireLoop lead now ms notified).2 := by
  intro ms
  induction ms with
  | nil => intro notified h; exact h
  | cons m rest ih =>
    intro notified h
    unfold fireLoop
    by_cases hmem : m.ID ∈ notified
    · rw [if_pos hmem]; exact ih notified h
    · rw [if_neg hmem]
      by_cases hcond : m.StartTime - now ≤ lead ∧ 0 < m.StartTime - now
      · rw [if_pos hcond]
        show tid ∈ (fireLoop lead now rest (m.ID :: notified)).2
        exact ih _ (List.mem_cons_of_mem _ h)
      · rw [if_neg hcond]; exact ih notified h

theorem fireLoop_fst_not_mem (lead now : Int) (tid : String) :
    ∀ (ms : List Meeting) (notified : List String), tid ∈ notified →
      tid ∉ (fireLoop lead now ms notified).1 := by
  intro ms
  induction ms with
  | nil => intro notified h hc; simp [fireLoop] at hc
  | cons m rest ih =>
    intro notified h
    unfold fireLoop
    by_cases hmem : m.ID ∈ notified
    · rw [if_pos hmem]; exact ih notified h
    · rw [if_neg hmem]
      by_cases hcond : m.StartTime - now ≤ lead ∧ 0 < m.StartTime - now
      · rw [if_pos hcond]
        show tid ∉ m.ID :: (fireLoop lead now rest (m.ID :: notified)).1
        intro hc
        rcases List.mem_cons.1 hc with rfl | hc'
        · exact hmem h
        · exact ih _ (List.mem_cons_of_mem _ h) hc'
      · rw [if_neg hcond]; exact ih notified h

theorem fireLoop_fst_sound (lead now : Int) (tid : String) :
    ∀ (ms : List Meeting) (notified : List String),
      tid ∈ (fireLoop lead now ms notified).1 →
      tid ∉ notified ∧ tid ∈ (fireLoop lead now ms notified).2 ∧
        ∃ m ∈ ms, m.ID = tid ∧ 0 < m.StartTime - now ∧ m.StartTime - now ≤ lead := by
  intro ms
  induction ms with
  | nil => intro notified h; simp [fireLoop] at h
  | cons m rest ih =>
    intro notified h
    unfold fireLoop at h ⊢
    by_cases hmem : m.ID ∈ notified
    · rw [if_pos hmem] at h ⊢
      obtain ⟨h1, h2, m', hm', h3⟩ := ih notified h
      exact ⟨h1, h2, m', List.mem_cons_of_mem _ hm', h3⟩
    · rw [if_neg hmem] at h ⊢
      by_cases hcond : m.StartTime - now ≤ lead ∧ 0 < m.StartTime - now
      · rw [if_pos hcond] at h ⊢
        replace h : tid ∈ m.ID :: (fireLoop lead now rest (m.ID :: notified)).1 := h
        show tid ∉ notified ∧
          tid ∈ (fireLoop lead now rest (m.ID :: notified)).2 ∧ _
        rcases List.mem_cons.1 h with rfl | h'
        · refine ⟨hmem, ?_, m, List.mem_cons_self m rest, rfl, hcond.2, hcond.1⟩
          exact fireLoop_snd_mem lead now m.ID rest _ (List.mem_cons_self _ _)
        · obtain ⟨h1, h2, m', hm', h3⟩ := ih (m.ID :: notified) h'
          refine ⟨fun hc => h1 (List.mem_cons_of_mem _ hc), h2,
            m', List.mem_cons_of_mem _ hm', h3⟩
      · rw [if_neg hcond] at h ⊢
        obtain ⟨h1, h2, m', hm', h3⟩ := ih notified h
        exact ⟨h1, h2, m', List.mem_cons_of_mem _ hm', h3⟩

theorem pruneNotified_mem (now : Int) (meetings : List Meeting)
    (notified : List String) (tid : String) :
    tid ∈ pruneNotified now meetings notified ↔
      tid ∈ notified ∧ ∃ m ∈ meetings, m.ID = tid ∧ now < m.EndTime := by
  unfold pruneNotified
  rw [List.mem_filter, List.any_eq_true]
  constructor
  · rintro ⟨h1, m, hm, hcond⟩
    simp only [Bool.and_eq_true, beq_iff_eq, decide_eq_true_eq] at hcond
    exact ⟨h1, m, hm, hcond.1, hcond.2⟩
  · rintro ⟨h1, m, hm, hid, hend⟩
    exact ⟨h1, m, hm, by simp [hid, hend]⟩

theorem check_disabled (s : NotifStep) (notified : List String)
    (he : s.enabled = false) :
    checkForUpcomingMeetings s notified = ([], notified) := by
  unfold checkForUpcomingMeetings
  rw [he]
  rfl

theorem check_enabled (s : NotifStep) (notified : List String)
    (he : s.enabled = true) :
    checkForUpcomingMeetings s notified =
      ((fireLoop s.lead s.now s.meetings notified).1,
        pruneNotified s.now s.meetings (fireLoop s.lead s.now s.meetings notified).2) := by
  unfold checkForUpcomingMeetings
  rw [he]
  rfl

theorem runNotifier_no_refire (tid : String) (S E : Int) (hSE : S < E) :
    ∀ (steps : List NotifStep) (notified : List String) (t0 : Int),
      (tid ∈ notified ∨ E ≤ t0) →
      List.Chain (fun a b => a ≤ b) t0 (steps.map NotifStep.now) →
      (∀ s ∈ steps, ∀ m ∈ s.meetings, m.ID = tid → m.StartTime = S ∧ m.EndTime = E) →
      (∀ s ∈ steps, ∃ m ∈ s.meetings, m.ID = tid) →
      ∀ fl ∈ runNotifier steps notified, tid ∉ fl := by
  intro steps
  induction steps with
  | nil =>
    intro notified t0 _ _ _ _ fl hfl
    simp [runNotifier] at hfl
  | cons s rest ih =>
    intro notified t0 hinv hch ht hp fl hfl
    rw [List.map_cons, List.chain_cons] at hch
    obtain ⟨h01, hch'⟩ := hch
    have hfired : tid ∉ (checkForUpcomingMeetings s notified).1 := by
      cases he : s.enabled with
      | false => rw [check_disabled s notified he]; simp
      | true =>
        rw [check_enabled s notified he]
        rcases hinv with hmem | hE
        · exact fireLoop_fst_not_mem s.lead s.now tid s.meetings notified hmem
        · intro hc
          obtain ⟨_, _, m, hm, hid, hgt, _⟩ :=
            fireLoop_fst_sound s.lead s.now tid s.meetings notified hc
          have hS := (ht s (List.mem_cons_self s rest) m hm hid).1
          omega
    have hinv' : tid ∈ (checkForUpcomingMeetings s notified).2 ∨ E ≤ s.now := by
      cases he : s.enabled with
      | false =>
        rw [check_disabled s notified he]
        rcases hinv with hmem | hE
        · exact Or.inl hmem
        · exact Or.inr (by omega)
      | true =>
        rw [check_enabled s notified he]
        rcases hinv with hmem | hE
        · by_cases hend : s.now < E
          · refine Or.inl ((pruneNotified_mem s.now s.meetings _ tid).2 ⟨?_, ?_⟩)
            · exact fireLoop_snd_mem s.lead s.now tid s.meetings notified hmem
            · obtain ⟨m0, hm0, hid0⟩ := hp s (List.mem_cons_self s rest)
              have hE0 := (ht s (List.mem_cons_self s rest) m0 hm0 hid0).2
              exact ⟨m0, hm0, hid0, by omega⟩
          · exact Or.inr (by omega)
        · exact Or.inr (by omega)
    unfold runNotifier at hfl
    rcases List.mem_cons.1 hfl with rfl | hfl'
    · exact hfired
    · exact ih ((checkForUpcomingMeetings s notified).2) s.now hinv' hch'
        (fun s' hs' => ht s' (List.mem_cons_of_mem _ hs'))
        (fun s' hs' => hp s' (List.mem_cons_of_mem _ hs')) fl hfl'

theorem contains_eq_true_iff (l : List String) (a : String) :
    l.contains a = true ↔ a ∈ l :=
  List.elem_iff

theorem chain'_tail_of_chain {a : Int} {l : List Int}
    (h : List.Chain (fun x y => x ≤ y) a l) :
    List.Chain' (fun x y => x ≤ y) l := by
  cases l with
  | nil => trivial
  | cons b l' => exact (List.chain_cons.1 h).2

theorem firedCount_le_one (tid : String) (S E : Int) (hSE : S < E) :
    ∀ (steps : List NotifStep) (notified0 : List String),
      List.Chain' (fun a b => a ≤ b) (steps.map NotifStep.now) →
      (∀ s ∈ steps, ∀ m ∈ s.meetings, m.ID = tid →
        m.StartTime = S ∧ m.EndTime = E) →
      (∀ s ∈ steps, ∃ m ∈ s.meetings, m.ID = tid) →
      firedCount steps notified0 tid ≤ 1 := by
  intro steps
  induction steps with
  | nil => intro notified0 _ _ _; simp [firedCount, runNotifier]
  | cons s rest ih =>
    intro notified0 hchain htimes hpres
    rw [List.map_cons] at hchain
    have hch : List.Chain (fun a b => a ≤ b) s.now (rest.map NotifStep.now) := hchain
    unfold firedCount runNotifier
    rw [List.filter_cons]
    by_cases hcont : ((checkForUpcomingMeetings s notified0).1.contains tid) = true
    · rw [if_pos hcont]
      have hmem1 : tid ∈ (checkForUpcomingMeetings s notified0).1 :=
        (contains_eq_true_iff _ tid).1 hcont
      have hzero : ∀ fl ∈ runNotifier rest (checkForUpcomingMeetings s notified0).2,
          tid ∉ fl := by
        have hinv' : tid ∈ (checkForUpcomingMeetings s notified0).2 ∨ E ≤ s.now := by
          cases he : s.enabled with
          | false =>
            rw [check_disabled s notified0 he] at hmem1
            simp at hmem1
          | true =>
            rw [check_enabled s notified0 he] at hmem1 ⊢
            obtain ⟨_, hsnd, _⟩ :=
              fireLoop_fst_sound s.lead s.now tid s.meetings notified0 hmem1
            by_cases hend : s.now < E
            · refine Or.inl ((pruneNotified_mem s.now s.meetings _ tid).2 ⟨hsnd, ?_⟩)
              obtain ⟨m0, hm0, hid0⟩ := hpres s (List.mem_cons_self s rest)
              have hE0 := (htimes s (List.mem_cons_self s rest) m0 hm0 hid0).2
              exact ⟨m0, hm0, hid0, by omega⟩
            · exact Or.inr (by omega)
        exact runNotifier_no_refire tid S E hSE rest
          ((checkForUpcomingMeetings s notified0).2) s.now hinv' hch
          (fun s' hs' => htimes s' (List.mem_cons_of_mem _ hs'))
          (fun s' hs' => hpres s' (List.mem_cons_of_mem _ hs'))
      have hfe : (runNotifier rest (checkForUpcomingMeetings s notified0).2).filter
          (fun l => l.contains tid) = [] := by
        rw [List.filter_eq_nil_iff]
        intro fl hfl
        intro hc
        exact hzero fl hfl ((contains_eq_true_iff fl tid).1 hc)
      rw [hfe]
      simp
    · rw [if_neg hcont]
      exact ih ((checkForUpcomingMeetings s notified0).2)
        (chain'_tail_of_chain hch)
        (fun s' hs' => htimes s' (List.mem_cons_of_mem _ hs'))
        (fun s' hs' => hpres s' (List.mem_cons_of_mem _ hs'))

/-- C5 confirmed: (i) the scheduler fires a meeting ID in a cycle only if
it is not yet in the NotifiedSet and `0 < StartTime - now ≤ leadTime`, and
marks it fired in that same cycle; (ii) across any sequence of cycles with
non-decreasing clock in which that ID stays present with unchanged times
(`StartTime < EndTime`), the reminder fires in at most one cycle — once
marked, the mark survives pruning until the meeting has ended, after which
the firing window is already past. -/
theorem c5_theorem (steps : List NotifStep) (notified0 : List String)
    (tid : String) (S E : Int) (hSE : S < E)
    (hchain : List.Chain' (fun a b => a ≤ b) (steps.map NotifStep.now))
    (htimes : ∀ s ∈ steps, ∀ m ∈ s.meetings, m.ID = tid →
      m.StartTime = S ∧ m.EndTime = E)
    (hpres : ∀ s ∈ steps, ∃ m ∈ s.meetings, m.ID = tid) :
    (∀ (lead now : Int) (ms : List Meeting) (notified : List String),
      tid ∈ (fireLoop lead now ms notified).1 →
      tid ∉ notified ∧ tid ∈ (fireLoop lead now ms notified).2 ∧
        ∃ m ∈ ms, m.ID = tid ∧ 0 < m.StartTime - now ∧ m.StartTime - now ≤ lead) ∧
    firedCount steps notified0 tid ≤ 1 :=
  ⟨fun lead now ms notified => fireLoop_fst_sound lead now tid ms notified,
   firedCount_le_one tid S E hSE steps notified0 hchain htimes hpres⟩

/-- The meeting and two-cycle run used as the C5 witness. -/
def witnessMeeting : Meeting :=
  Meeting.mk ("m1") ("Sync") (5 * minuteNs) (30 * minuteNs) none ("") ("") false

/-- The two cycles of the C5 witness: the clock advances one minute. -/
def witnessSteps : List NotifStep :=
  [NotifStep.mk true (5 * minuteNs) (1 * minuteNs) [witnessMeeting],
   NotifStep.mk true (5 * minuteNs) (2 * minuteNs) [witnessMeeting]]

/-- Witness for `c5_theorem` on a concrete two-cycle run. -/
theorem c5_witness :
    (∀ (lead now : Int) (ms : List Meeting) (notified : List String),
      ("m1") ∈ (fireLoop lead now ms notified).1 →
      ("m1") ∉ notified ∧ ("m1") ∈ (fireLoop lead now ms notified).2 ∧
        ∃ m ∈ ms, m.ID = ("m1") ∧ 0 < m.StartTime - now ∧ m.StartTime - now ≤ lead) ∧
    firedCount witnessSteps [] ("m1") ≤ 1 :=
  c5_theorem witnessSteps [] ("m1") (5 * minuteNs) (30 * minuteNs)
    (by norm_num [minuteNs])
    (by
      simp only [witnessSteps, List.map_cons, List.map_nil]
      exact List.chain'_cons.2 ⟨by norm_num [minuteNs], List.chain'_singleton _⟩)
    (by decide)
    (by decide)

end MB
